import Mathlib

/-!
Verification of the trapmail mail-record model and its on-disk store
(src/lib.rs): the record data model, decimal filename generation, the
`FILENAME_RE` filename filter, JSON (de)serialization at the document
level, and the store's `add` / `iter_mails` operations.
-/

/-- Decimal digit character for a value 0 through 9 (models Rust's decimal
`Display` digit output). -/
def decDigit : Nat → Char
  | 0 => '0'
  | 1 => '1'
  | 2 => '2'
  | 3 => '3'
  | 4 => '4'
  | 5 => '5'
  | 6 => '6'
  | 7 => '7'
  | 8 => '8'
  | _ => '9'

/-- Numeric value of a decimal digit character. -/
def digitVal (c : Char) : Nat := c.toNat - 48

/-- Decimal digit test (ASCII `0`-`9`), modelling the digit class used in the
stored-filename pattern; see `FILENAME_RE_is_match` for the Unicode caveat. -/
def isDig (c : Char) : Bool := decide (48 ≤ c.toNat) && decide (c.toNat ≤ 57)

/-- Most-significant-first decimal digits of `n`, with `fuel` bounding the
recursion depth (`fuel ≥ n` suffices). -/
def natToDecAux : Nat → Nat → List Char
  | 0, _ => []
  | _ + 1, 0 => []
  | fuel + 1, n + 1 => natToDecAux fuel ((n + 1) / 10) ++ [decDigit ((n + 1) % 10)]

/-- Decimal rendering of a `Nat`, as Rust's `format!` renders an unsigned
integer such as the `u128` timestamp: plain decimal digits, no padding. -/
def natToDec (n : Nat) : List Char :=
  match n with
  | 0 => ['0']
  | n + 1 => natToDecAux (n + 1) (n + 1)

/-- Decimal rendering of an `Int`, as Rust renders an `i32`
(`nix::unistd::Pid` displays its raw `i32` value). -/
def intDec (i : Int) : List Char :=
  if i < 0 then '-' :: natToDec (-i).toNat else natToDec i.toNat

/-- Value of a most-significant-first decimal digit string. -/
def decValue (l : List Char) : Nat := l.foldl (fun a c => 10 * a + digitVal c) 0

/-- A filesystem path argument; `nonUtf8` stands for a path whose bytes are
not valid UTF-8 (serde serializes a path by converting it to a string,
which fails for such a path). -/
inductive PathBuf where
  | utf8 (s : String)
  | nonUtf8 (tag : Nat)
  deriving DecidableEq

/-- Command-line options of the trapmail program (src/lib.rs `CliOptions`). -/
structure CliOptions where
  debug : Bool
  ignore_dots : Bool
  inline_recipients : Bool
  addresses : List String
  dump : Option PathBuf
  deriving DecidableEq

/-- A "sent" mail (src/lib.rs `Mail`). `pid` and `ppid` model
`nix::unistd::Pid` (a raw `i32`) as `Int`; `raw_body` models `Vec<u8>` as a
list of byte values; `timestamp_us` models the `u128` microsecond timestamp
as `Nat` (a duration since the UNIX epoch cannot overflow `u128`). -/
structure Mail where
  cli_options : CliOptions
  pid : Int
  ppid : Int
  raw_body : List Nat
  timestamp_us : Nat
  deriving DecidableEq

/-- The error taxonomy of src/lib.rs `Error` (the wrapped payloads carry no
information the claims depend on and are omitted). -/
inductive Error where
  | Store
  | MailSerialization
  | DirEnumeration
  | Load
  | MailDeserialization
  deriving DecidableEq

/-- The characters of the literal piece `trapmail_` of the filename format. -/
def tpChars : List Char := ['t', 'r', 'a', 'p', 'm', 'a', 'i', 'l', '_']

/-- The characters of the literal piece `json` of the filename format. -/
def jsChars : List Char := ['j', 's', 'o', 'n']

/-- src/lib.rs `Mail::file_name`:
`format!("trapmail_{}_{}_{}.json", self.timestamp_us, self.ppid, self.pid)`.
Note the field order: timestamp, then parent pid, then pid. -/
def Mail.file_name (m : Mail) : List Char :=
  tpChars ++ (natToDec m.timestamp_us ++ '_' ::
    (intDec m.ppid ++ '_' :: (intDec m.pid ++ '.' :: jsChars)))

/-- src/lib.rs `Mail::new`, modelled against an explicit clock: `read_ns` is
the value of `SystemTime::now()` (nanoseconds since the UNIX epoch) at the
instant the constructor reads the clock, which happens after its
unconditional 1000 ns sleep; `as_micros` is division by 1000. Two
sequential constructions in one process therefore read the clock at
instants at least 1000 ns apart. -/
def Mail.new (cli : CliOptions) (raw_body : List Nat) (pid ppid : Int)
    (read_ns : Nat) : Mail :=
  { cli_options := cli, pid := pid, ppid := ppid, raw_body := raw_body,
    timestamp_us := read_ns / 1000 }

/-- The codepoint ranges of the Unicode general category `Nd` (decimal
digit), per the Unicode Character Database (DerivedGeneralCategory.txt,
Unicode 15.0): this is the class the regex crate's `\d` denotes with its
default Unicode mode. The exact set tracks the Unicode version bundled
with the regex crate; every range here is stable across recent versions,
and the ASCII range `0030-0039` — the only digits generated filenames
contain — is in every version. -/
def ndRanges : List (Nat × Nat) :=
  [(0x0030, 0x0039), (0x0660, 0x0669), (0x06F0, 0x06F9), (0x07C0, 0x07C9),
   (0x0966, 0x096F), (0x09E6, 0x09EF), (0x0A66, 0x0A6F), (0x0AE6, 0x0AEF),
   (0x0B66, 0x0B6F), (0x0BE6, 0x0BEF), (0x0C66, 0x0C6F), (0x0CE6, 0x0CEF),
   (0x0D66, 0x0D6F), (0x0DE6, 0x0DEF), (0x0E50, 0x0E59), (0x0ED0, 0x0ED9),
   (0x0F20, 0x0F29), (0x1040, 0x1049), (0x1090, 0x1099), (0x17E0, 0x17E9),
   (0x1810, 0x1819), (0x1946, 0x194F), (0x19D0, 0x19D9), (0x1A80, 0x1A89),
   (0x1A90, 0x1A99), (0x1B50, 0x1B59), (0x1BB0, 0x1BB9), (0x1C40, 0x1C49),
   (0x1C50, 0x1C59), (0xA620, 0xA629), (0xA8D0, 0xA8D9), (0xA900, 0xA909),
   (0xA9D0, 0xA9D9), (0xA9F0, 0xA9F9), (0xAA50, 0xAA59), (0xABF0, 0xABF9),
   (0xFF10, 0xFF19), (0x104A0, 0x104A9), (0x10D30, 0x10D39), (0x11066, 0x1106F),
   (0x110F0, 0x110F9), (0x11136, 0x1113F), (0x111D0, 0x111D9), (0x112F0, 0x112F9),
   (0x11450, 0x11459), (0x114D0, 0x114D9), (0x11650, 0x11659), (0x116C0, 0x116C9),
   (0x11730, 0x11739), (0x118E0, 0x118E9), (0x11950, 0x11959), (0x11C50, 0x11C59),
   (0x11D50, 0x11D59), (0x11DA0, 0x11DA9), (0x11F50, 0x11F59), (0x16A60, 0x16A69),
   (0x16AC0, 0x16AC9), (0x16B50, 0x16B59), (0x1D7CE, 0x1D7FF), (0x1E140, 0x1E149),
   (0x1E2F0, 0x1E2F9), (0x1E4F0, 0x1E4F9), (0x1E950, 0x1E959), (0x1FBF0, 0x1FBF9)]

/-- The regex crate's `\d`: a Unicode decimal digit (`\p{Nd}`), tested by
codepoint against the `Nd` range table. -/
def isNd (c : Char) : Bool :=
  ndRanges.any fun r => decide (r.1 ≤ c.toNat) && decide (c.toNat ≤ r.2)

/-- One-or-more `\d` characters (Unicode decimal digits) followed by a
continuation accepted by `k`: the `\d+` pieces of `FILENAME_RE`. -/
def digitsThen (k : List Char → Bool) : List Char → Bool
  | [] => false
  | c :: rest => isNd c && (k rest || digitsThen k rest)

/-- The `.json` tail of `FILENAME_RE`: the unescaped regex dot matches any
single character except a newline, then the literal `json` follows. -/
def dotJson (l : List Char) : Bool :=
  match l with
  | [] => false
  | c :: rest => decide (c ≠ '\n') && jsChars.isPrefixOf rest

/-- The `_\d+.json` piece of `FILENAME_RE` that follows the second `\d+`. -/
def reTail2 (l : List Char) : Bool :=
  match l with
  | c :: rest => c == '_' && digitsThen dotJson rest
  | [] => false

/-- The `_\d+_\d+.json` piece of `FILENAME_RE` that follows the first `\d+`. -/
def reTail1 (l : List Char) : Bool :=
  match l with
  | c :: rest => c == '_' && digitsThen reTail2 rest
  | [] => false

/-- The part of `FILENAME_RE` after the literal `trapmail_`:
`\d+_\d+_\d+.json`. -/
def afterTrapmail : List Char → Bool := digitsThen reTail1

/-- Whether `FILENAME_RE` matches starting at the first character of `l`. -/
def matchAt (l : List Char) : Bool := tpChars.isPrefixOf l && afterTrapmail (l.drop 9)

/-- src/lib.rs `FILENAME_RE.is_match(..)` for the regex
`trapmail_\d+_\d+_\d+.json`: the pattern is unanchored, so `is_match`
succeeds when ANY substring matches; `\d` is the Unicode decimal-digit
class `\p{Nd}` (see `isNd`); and the dot before `json` is unescaped,
matching any single non-newline character. -/
def FILENAME_RE_is_match : List Char → Bool
  | [] => false
  | c :: rest => matchAt (c :: rest) || FILENAME_RE_is_match rest

/-- Every character of the list is an ASCII decimal digit. -/
def allDigits (l : List Char) : Prop := ∀ c ∈ l, isDig c = true

/-- Every character of the list is a Unicode decimal digit (`\p{Nd}`). -/
def allNd (l : List Char) : Prop := ∀ c ∈ l, isNd c = true

/-- The name contains, anywhere, a substring of the shape
`trapmail_<digits>_<digits>_<digits><ch>json`, where each `<digits>` field
is one or more Unicode decimal digits (`\p{Nd}`, the regex crate's `\d`)
and `ch` is any single non-newline character: what the unanchored
`FILENAME_RE` actually accepts. -/
def reMatchSpec (l : List Char) : Prop :=
  ∃ pre a b c ch post,
    l = pre ++ (tpChars ++ (a ++ '_' :: (b ++ '_' :: (c ++ ch :: (jsChars ++ post))))) ∧
    a ≠ [] ∧ b ≠ [] ∧ c ≠ [] ∧ allNd a ∧ allNd b ∧ allNd c ∧ ch ≠ '\n'

/-- The whole name has exactly the canonical shape
`trapmail_<digits>_<digits>_<digits>.json` the spec describes: nothing
before or after, and a literal dot before the `json` extension. -/
def canonicalSpec (l : List Char) : Prop :=
  ∃ a b c,
    l = tpChars ++ (a ++ '_' :: (b ++ '_' :: (c ++ '.' :: jsChars))) ∧
    a ≠ [] ∧ b ≠ [] ∧ c ≠ [] ∧ allDigits a ∧ allDigits b ∧ allDigits c

/-- Exact-shape parser for canonical filenames
`trapmail_<digits>_<digits>_<digits>.json`: returns the three numeric
fields exactly when the whole name has that shape. -/
def parseFileName (l : List Char) : Option (Nat × Nat × Nat) :=
  if tpChars.isPrefixOf l then
    match (l.drop 9).takeWhile isDig, (l.drop 9).dropWhile isDig with
    | da :: das, '_' :: l₂ =>
      match l₂.takeWhile isDig, l₂.dropWhile isDig with
      | db :: dbs, '_' :: l₃ =>
        match l₃.takeWhile isDig, l₃.dropWhile isDig with
        | dc :: dcs, rest =>
          if rest = '.' :: jsChars then
            some (decValue (da :: das), decValue (db :: dbs), decValue (dc :: dcs))
          else none
        | _, _ => none
      | _, _ => none
    | _, _ => none
  else none

/-- JSON documents, the target of `serde_json` serialization. Numbers are
modelled as integers, which covers every number the record serializer
emits; the byte-level rendering and parsing of documents is `serde_json`'s
own (external) text layer. -/
inductive Json where
  | null
  | bool (b : Bool)
  | num (n : Int)
  | str (s : String)
  | arr (elems : List Json)
  | obj (fields : List (String × Json))

/-- serde serialization of the `dump` field: `None` becomes JSON null,
`Some(path)` becomes a JSON string, failing when the path is not valid
UTF-8 (serde's `Serialize` for `Path`). -/
def dumpToJson : Option PathBuf → Option Json
  | none => some Json.null
  | some (PathBuf.utf8 s) => some (Json.str s)
  | some (PathBuf.nonUtf8 _) => none

/-- serde serialization of `CliOptions` (derived `Serialize`: a JSON object
with the fields in declaration order). -/
def cliToJson (c : CliOptions) : Option Json :=
  match dumpToJson c.dump with
  | none => none
  | some dj =>
    some (Json.obj
      [("debug", Json.bool c.debug),
       ("ignore_dots", Json.bool c.ignore_dots),
       ("inline_recipients", Json.bool c.inline_recipients),
       ("addresses", Json.arr (c.addresses.map Json.str)),
       ("dump", dj)])

/-- serde serialization of `Mail` (derived `Serialize`). `raw_body` uses
`serde_bytes`, which `serde_json` renders as an array of byte values, so
arbitrary bytes (null bytes, non-UTF-8 sequences) are representable.
Modelled from the spec: the `serde_pid` module (declared `pub mod
serde_pid` in src/lib.rs; its source file is not under src/) persists a
process id exactly, modelled as the raw integer. -/
def mailToJson (m : Mail) : Option Json :=
  match cliToJson m.cli_options with
  | none => none
  | some cj =>
    some (Json.obj
      [("cli_options", cj),
       ("pid", Json.num m.pid),
       ("ppid", Json.num m.ppid),
       ("raw_body", Json.arr (m.raw_body.map fun b => Json.num (Int.ofNat b))),
       ("timestamp_us", Json.num (Int.ofNat m.timestamp_us))])

/-- First value bound to the given key in a JSON object (serde looks struct
fields up by name). -/
def lookupField (fs : List (String × Json)) (k : String) : Option Json :=
  match fs with
  | [] => none
  | (k', v) :: rest => if k' = k then some v else lookupField rest k

/-- Decode a JSON array of strings (the `addresses` field). -/
def decodeStrList : List Json → Option (List String)
  | [] => some []
  | Json.str s :: rest =>
    match decodeStrList rest with
    | some l => some (s :: l)
    | none => none
  | _ => none

/-- Decode a JSON array of byte values (the `serde_bytes` encoding of
`raw_body`); a number outside `0..=255` is rejected as `u8` overflow. -/
def decodeByteList : List Json → Option (List Nat)
  | [] => some []
  | Json.num n :: rest =>
    if 0 ≤ n ∧ n < 256 then
      match decodeByteList rest with
      | some l => some (n.toNat :: l)
      | none => none
    else none
  | _ => none

/-- Decode the `dump` field: null or a string. -/
def dumpFromJson : Json → Option (Option PathBuf)
  | Json.null => some none
  | Json.str s => some (some (PathBuf.utf8 s))
  | _ => none

/-- serde deserialization of `CliOptions`. -/
def cliFromJson : Json → Option CliOptions
  | Json.obj fs =>
    match lookupField fs ("debug"), lookupField fs ("ignore_dots"),
          lookupField fs ("inline_recipients"), lookupField fs ("addresses"),
          lookupField fs ("dump") with
    | some (Json.bool d), some (Json.bool i), some (Json.bool r),
      some (Json.arr as), some dj =>
      match decodeStrList as, dumpFromJson dj with
      | some addrs, some dmp => some ⟨d, i, r, addrs, dmp⟩
      | _, _ => none
    | _, _, _, _, _ => none
  | _ => none

/-- serde deserialization of `Mail` (src/lib.rs `Mail::load`'s
`serde_json::from_reader`, applied to a parsed document); `timestamp_us`
is `u128`, so a negative number is rejected. -/
def mailFromJson : Json → Option Mail
  | Json.obj fs =>
    match lookupField fs ("cli_options"), lookupField fs ("pid"),
          lookupField fs ("ppid"), lookupField fs ("raw_body"),
          lookupField fs ("timestamp_us") with
    | some cj, some (Json.num p), some (Json.num pp),
      some (Json.arr body), some (Json.num ts) =>
      match cliFromJson cj, decodeByteList body with
      | some cli, some raw =>
        if 0 ≤ ts then some ⟨cli, p, pp, raw, ts.toNat⟩ else none
      | _, _ => none
    | _, _, _, _, _ => none
  | _ => none

/-- A directory-entry name as the operating system reports it: either valid
UTF-8 or not (an `OsString` that `into_string` cannot convert). -/
inductive OsString where
  | valid (s : List Char)
  | invalid (tag : Nat)
  deriving DecidableEq

/-- Contents of one file in a store directory: a JSON document written by a
successful serialization, or malformed bytes (empty, truncated or garbled)
that do not parse as a record document. -/
inductive FileContent where
  | json (j : Json)
  | malformed (tag : Nat)

/-- A directory's contents: entry names paired with file contents. -/
abbrev Store := List (OsString × FileContent)

/-- Contents of the file with the given (valid-UTF-8) name, if present. -/
def lookupStore : Store → List Char → Option FileContent
  | [], _ => none
  | (n, c) :: rest, name =>
    if n = OsString.valid name then some c else lookupStore rest name

/-- Create or truncate the named file with the given contents
(`fs::File::create` followed by writes). -/
def storeInsert (name : List Char) (c : FileContent) : Store → Store
  | [] => [(OsString.valid name, c)]
  | (n, c') :: rest =>
    if n = OsString.valid name then (OsString.valid name, c) :: rest
    else (n, c') :: storeInsert name c rest

/-- src/lib.rs `Mail::load` of the file with the given name, resolved in
the directory `dir`: opening a missing file is a `Load` error; contents
that do not decode as a `Mail` are a `MailDeserialization` error. -/
def Mail.load (dir : Store) (name : List Char) : Except Error Mail :=
  match lookupStore dir name with
  | none => Except.error Error.Load
  | some (FileContent.malformed _) => Except.error Error.MailDeserialization
  | some (FileContent.json j) =>
    match mailFromJson j with
    | some m => Except.ok m
    | none => Except.error Error.MailDeserialization

/-- src/lib.rs `MailStore::add`, acting on the contents of the store's root
directory: `File::create` first creates (or truncates) the destination
file, then `serde_json::to_writer_pretty` encodes the record into it. If
encoding fails, the already-created file remains with malformed
(empty or partial) contents and a `MailSerialization` error is returned.
On success the stored path is returned, modelled by the file name (the
source returns `self.root.join(name)`). -/
def MailStore.add (rootDir : Store) (m : Mail) : Except Error (List Char) × Store :=
  match mailToJson m with
  | some j =>
    (Except.ok (Mail.file_name m),
     storeInsert (Mail.file_name m) (FileContent.json j)
       (storeInsert (Mail.file_name m) (FileContent.malformed 0) rootDir))
  | none =>
    (Except.error Error.MailSerialization,
     storeInsert (Mail.file_name m) (FileContent.malformed 0) rootDir)

/-- The filename-collection pass of src/lib.rs `MailStore::iter_mails`:
each directory entry's name is converted `OsString → String` with
`.expect(..)` — which panics (modelled as `none`) on a name that is not
valid UTF-8, because the conversion happens BEFORE the filename filter —
and names matching `FILENAME_RE` are kept. -/
def collectNames : List OsString → Option (List (List Char))
  | [] => some []
  | OsString.valid s :: rest =>
    if FILENAME_RE_is_match s then
      match collectNames rest with
      | some ns => some (s :: ns)
      | none => none
    else collectNames rest
  | OsString.invalid _ :: _ => none

/-- Strict lexicographic order on names, by character code. Rust's `String`
ordering compares UTF-8 bytes; UTF-8 byte order coincides with codepoint
order, so comparing `Char.toNat` is faithful. -/
def lexLt : List Char → List Char → Bool
  | [], [] => false
  | [], _ :: _ => true
  | _ :: _, [] => false
  | x :: xs, y :: ys =>
    if x.toNat < y.toNat then true
    else if y.toNat < x.toNat then false
    else lexLt xs ys

/-- Reflexive lexicographic order on names, by character code. -/
def lexLe : List Char → List Char → Bool
  | [], _ => true
  | _ :: _, [] => false
  | x :: xs, y :: ys =>
    if x.toNat < y.toNat then true
    else if y.toNat < x.toNat then false
    else lexLe xs ys

/-- Insert a name into a lexicographically sorted list of names. -/
def insertLex (x : List Char) : List (List Char) → List (List Char)
  | [] => [x]
  | y :: rest => if lexLe x y then x :: y :: rest else y :: insertLex x rest

/-- Sort names lexicographically (insertion sort; the resulting order, not
the algorithm, is what `paths.sort()` contributes). -/
def sortLex : List (List Char) → List (List Char)
  | [] => []
  | x :: rest => insertLex x (sortLex rest)

/-- src/lib.rs `MailStore::iter_mails`, made explicit about directories:
the entry NAMES are read from the store's root directory (`rootDir`), but
`Mail::load` is then applied to each collected name as a bare relative
path — the source never joins `self.root` back on — so the file CONTENTS
are resolved in the process's current working directory (`cwdDir`).
`none` models the `expect` panic on a non-UTF-8 entry name. -/
def iter_mails (rootDir cwdDir : Store) : Option (List (Except Error Mail)) :=
  match collectNames (rootDir.map Prod.fst) with
  | none => none
  | some ns => some ((sortLex ns).map (Mail.load cwdDir))

/-- Every byte value of a `Vec<u8>` body is an actual byte (`< 256`);
`raw_body` is modelled as `List Nat`, and this captures its `u8` element
type. -/
def bytesOk (l : List Nat) : Bool := l.all fun b => decide (b < 256)

/-- Whether serializing the `dump` field can succeed (serde fails on a
non-UTF-8 path, and succeeds otherwise). -/
def dumpOk : Option PathBuf → Bool
  | some (PathBuf.nonUtf8 _) => false
  | _ => true

/-! ### Decimal rendering lemmas -/

theorem digitVal_decDigit {d : Nat} (hd : d < 10) : digitVal (decDigit d) = d := by
  interval_cases d <;> rfl

theorem isDig_decDigit {d : Nat} (hd : d < 10) : isDig (decDigit d) = true := by
  interval_cases d <;> rfl

theorem natToDecAux_digits : ∀ f n c, c ∈ natToDecAux f n → isDig c = true := by
  intro f
  induction f with
  | zero => intro n c hc; simp [natToDecAux] at hc
  | succ f ih =>
    intro n c hc
    cases n with
    | zero => simp [natToDecAux] at hc
    | succ n =>
      simp only [natToDecAux, List.mem_append, List.mem_singleton] at hc
      rcases hc with hc | hc
      · exact ih _ _ hc
      · subst hc; exact isDig_decDigit (Nat.mod_lt _ (by norm_num))

theorem decValue_append_digit (l : List Char) (c : Char) :
    decValue (l ++ [c]) = 10 * decValue l + digitVal c := by
  simp [decValue, List.foldl_append]

theorem decValue_natToDecAux : ∀ f n, n ≤ f → decValue (natToDecAux f n) = n := by
  intro f
  induction f with
  | zero =>
    intro n hn
    have : n = 0 := Nat.le_zero.mp hn
    subst this; rfl
  | succ f ih =>
    intro n hn
    cases n with
    | zero => rfl
    | succ n =>
      have hdiv : (n + 1) / 10 ≤ f := by
        have : (n + 1) / 10 < n + 1 := Nat.div_lt_self (Nat.succ_pos n) (by norm_num)
        omega
      calc decValue (natToDecAux (f + 1) (n + 1))
          = decValue (natToDecAux f ((n + 1) / 10) ++ [decDigit ((n + 1) % 10)]) := rfl
        _ = 10 * ((n + 1) / 10) + digitVal (decDigit ((n + 1) % 10)) := by
              rw [decValue_append_digit, ih _ hdiv]
        _ = 10 * ((n + 1) / 10) + (n + 1) % 10 := by
              rw [digitVal_decDigit (Nat.mod_lt _ (by norm_num))]
        _ = n + 1 := Nat.div_add_mod (n + 1) 10

theorem decValue_natToDec (n : Nat) : decValue (natToDec n) = n := by
  cases n with
  | zero => rfl
  | succ n => exact decValue_natToDecAux _ _ (Nat.le_refl _)

theorem natToDec_inj {a b : Nat} (h : natToDec a = natToDec b) : a = b := by
  have h2 := congrArg decValue h
  rwa [decValue_natToDec, decValue_natToDec] at h2

theorem natToDec_ne_nil (n : Nat) : natToDec n ≠ [] := by
  cases n with
  | zero => simp [natToDec]
  | succ n => simp [natToDec, natToDecAux]

theorem natToDec_digits (n : Nat) : allDigits (natToDec n) := by
  unfold allDigits
  cases n with
  | zero =>
    intro c hc
    simp [natToDec] at hc
    subst hc; rfl
  | succ n => intro c hc; exact natToDecAux_digits _ _ _ hc

theorem natToDecAux_ne_nil (f n : Nat) (h1 : 1 ≤ n) (h2 : n ≤ f) :
    natToDecAux f n ≠ [] := by
  cases f with
  | zero => omega
  | succ f =>
    cases n with
    | zero => omega
    | succ n => simp [natToDecAux]

theorem natToDecAux_head : ∀ f n, 1 ≤ n → n ≤ f →
    ∀ c, (natToDecAux f n).head? = some c → c ≠ '0' := by
  intro f
  induction f with
  | zero => intro n h1 h2 c hc; omega
  | succ f ih =>
    intro n h1 h2 c hc
    cases n with
    | zero => omega
    | succ n =>
      have heq : natToDecAux (f + 1) (n + 1)
          = natToDecAux f ((n + 1) / 10) ++ [decDigit ((n + 1) % 10)] := rfl
      rw [heq] at hc
      have hdlt : (n + 1) / 10 < n + 1 := Nat.div_lt_self (Nat.succ_pos n) (by norm_num)
      by_cases hq : (n + 1) / 10 = 0
      · have hnil : natToDecAux f ((n + 1) / 10) = [] := by
          rw [hq]; cases f <;> rfl
        rw [hnil, List.nil_append] at hc
        have hc' : c = decDigit ((n + 1) % 10) := by
          simp only [List.head?_cons, Option.some.injEq] at hc
          exact hc.symm
        have hlt : n + 1 < 10 := by
          by_contra hge
          push_neg at hge
          have h10 : 1 * 10 ≤ n + 1 := by omega
          have := (Nat.le_div_iff_mul_le (by norm_num : 0 < 10)).mpr h10
          omega
        have hmod : (n + 1) % 10 = n + 1 := Nat.mod_eq_of_lt hlt
        rw [hc', hmod]
        have hub : n ≤ 8 := by omega
        interval_cases n <;> decide
      · have hne : natToDecAux f ((n + 1) / 10) ≠ [] :=
          natToDecAux_ne_nil f ((n + 1) / 10) (by omega) (by omega)
        cases hx : natToDecAux f ((n + 1) / 10) with
        | nil => exact absurd hx hne
        | cons a t =>
          rw [hx] at hc
          simp only [List.cons_append, List.head?_cons, Option.some.injEq] at hc
          subst hc
          exact ih ((n + 1) / 10) (by omega) (by omega) a (by rw [hx]; rfl)

theorem natToDec_no_pad (n : Nat) (hn : n ≠ 0) :
    ∀ c, (natToDec n).head? = some c → c ≠ '0' := by
  cases n with
  | zero => exact absurd rfl hn
  | succ n => exact natToDecAux_head (n + 1) (n + 1) (by omega) (Nat.le_refl _)

/-- `l` is the exact, unpadded decimal numeral of `n`: all digits, nonempty,
with value `n`, rendering zero as `0`, and with no leading zero otherwise. -/
def decimalRep (l : List Char) (n : Nat) : Prop :=
  allDigits l ∧ l ≠ [] ∧ decValue l = n ∧ (n = 0 → l = ['0']) ∧
    (n ≠ 0 → ∀ c, l.head? = some c → c ≠ '0')

theorem natToDec_decimalRep (n : Nat) : decimalRep (natToDec n) n :=
  ⟨natToDec_digits n, natToDec_ne_nil n, decValue_natToDec n,
   fun h => by subst h; rfl, fun hn => natToDec_no_pad n hn⟩

/-! ### Lexicographic order lemmas -/

theorem lexLe_of_lexLt : ∀ a b : List Char, lexLt a b = true → lexLe a b = true := by
  intro a
  induction a with
  | nil => intro b h; cases b <;> rfl
  | cons x xs ih =>
    intro b h
    cases b with
    | nil => simp [lexLt] at h
    | cons y ys =>
      by_cases h1 : x.toNat < y.toNat
      · simp [lexLe, h1]
      · by_cases h2 : y.toNat < x.toNat
        · simp [lexLt, h1, h2] at h
        · simp only [lexLt, if_neg h1, if_neg h2] at h
          simp only [lexLe, if_neg h1, if_neg h2]
          exact ih _ h

theorem decValue_from : ∀ (l : List Char) (a : Nat),
    List.foldl (fun acc c => 10 * acc + digitVal c) a l = a * 10 ^ l.length + decValue l := by
  intro l
  induction l with
  | nil => intro a; simp [decValue]
  | cons x xs ih =>
    intro a
    show List.foldl _ (10 * a + digitVal x) xs = _
    rw [ih (10 * a + digitVal x)]
    have h2 : decValue (x :: xs)
        = List.foldl (fun acc c => 10 * acc + digitVal c) (10 * 0 + digitVal x) xs := rfl
    rw [List.length_cons, h2, ih (10 * 0 + digitVal x)]
    ring

theorem decValue_cons (x : Char) (xs : List Char) :
    decValue (x :: xs) = digitVal x * 10 ^ xs.length + decValue xs := by
  have h : decValue (x :: xs)
      = List.foldl (fun acc c => 10 * acc + digitVal c) (10 * 0 + digitVal x) xs := rfl
  rw [h, decValue_from]
  ring

theorem digitVal_le_nine {c : Char} (hc : isDig c = true) : digitVal c ≤ 9 := by
  simp only [isDig, Bool.and_eq_true, decide_eq_true_eq] at hc
  unfold digitVal
  omega

theorem decValue_lt_pow (l : List Char) (hl : ∀ c ∈ l, isDig c = true) :
    decValue l < 10 ^ l.length := by
  induction l with
  | nil => simp [decValue]
  | cons x xs ih =>
    rw [decValue_cons, List.length_cons]
    have hx : digitVal x ≤ 9 := digitVal_le_nine (hl x (List.mem_cons_self _ _))
    have hxs := ih (fun c hc => hl c (List.mem_cons_of_mem _ hc))
    calc digitVal x * 10 ^ xs.length + decValue xs
        < digitVal x * 10 ^ xs.length + 10 ^ xs.length := Nat.add_lt_add_left hxs _
      _ ≤ 9 * 10 ^ xs.length + 10 ^ xs.length :=
          Nat.add_le_add_right (Nat.mul_le_mul_right _ hx) _
      _ = 10 ^ (xs.length + 1) := by ring

theorem lexLt_of_decValue_lt : ∀ a b : List Char, (∀ c ∈ a, isDig c = true) →
    (∀ c ∈ b, isDig c = true) → a.length = b.length →
    decValue a < decValue b → lexLt a b = true := by
  intro a
  induction a with
  | nil =>
    intro b _ _ hlen hv
    cases b with
    | nil => simp [decValue] at hv
    | cons y ys => simp at hlen
  | cons x xs ih =>
    intro b ha hb hlen hv
    cases b with
    | nil => simp at hlen
    | cons y ys =>
      have hlen' : xs.length = ys.length := by simpa using hlen
      have hxs : ∀ c ∈ xs, isDig c = true := fun c hc => ha c (List.mem_cons_of_mem _ hc)
      have hys : ∀ c ∈ ys, isDig c = true := fun c hc => hb c (List.mem_cons_of_mem _ hc)
      have hxd : 48 ≤ x.toNat ∧ x.toNat ≤ 57 := by
        have hd := ha x (List.mem_cons_self _ _)
        simpa [isDig] using hd
      have hyd : 48 ≤ y.toNat ∧ y.toNat ≤ 57 := by
        have hd := hb y (List.mem_cons_self _ _)
        simpa [isDig] using hd
      rw [decValue_cons, decValue_cons, hlen'] at hv
      by_cases h1 : x.toNat < y.toNat
      · simp [lexLt, h1]
      · by_cases h2 : y.toNat < x.toNat
        · exfalso
          have hbs := decValue_lt_pow ys hys
          have hstep : (digitVal y + 1) * 10 ^ ys.length ≤ digitVal x * 10 ^ ys.length :=
            Nat.mul_le_mul_right _ (by unfold digitVal; omega)
          have h3 : digitVal y * 10 ^ ys.length + decValue ys
              < (digitVal y + 1) * 10 ^ ys.length := by
            rw [Nat.succ_mul]
            exact Nat.add_lt_add_left hbs _
          have h4 : digitVal y * 10 ^ ys.length + decValue ys
              < digitVal x * 10 ^ ys.length + decValue xs :=
            lt_of_lt_of_le (lt_of_lt_of_le h3 hstep) (Nat.le_add_right _ _)
          exact Nat.lt_irrefl _ (Nat.lt_trans hv h4)
        · have hdv : digitVal x = digitVal y := by unfold digitVal; omega
          rw [hdv] at hv
          have hv' : decValue xs < decValue ys := Nat.lt_of_add_lt_add_left hv
          simp only [lexLt, if_neg h1, if_neg h2]
          exact ih ys hxs hys hlen' hv'

theorem lexLt_append_same : ∀ p u v : List Char, lexLt (p ++ u) (p ++ v) = lexLt u v := by
  intro p u v
  induction p with
  | nil => rfl
  | cons x xs ih =>
    show lexLt (x :: (xs ++ u)) (x :: (xs ++ v)) = _
    simp only [lexLt, Nat.lt_irrefl, if_neg (Nat.lt_irrefl _)]
    exact ih

theorem lexLt_append_of_samelen : ∀ a b s t : List Char, a.length = b.length →
    lexLt a b = true → lexLt (a ++ s) (b ++ t) = true := by
  intro a
  induction a with
  | nil =>
    intro b s t hlen h
    cases b with
    | nil => simp [lexLt] at h
    | cons y ys => simp at hlen
  | cons x xs ih =>
    intro b s t hlen h
    cases b with
    | nil => simp at hlen
    | cons y ys =>
      have hlen' : xs.length = ys.length := by simpa using hlen
      simp only [List.cons_append]
      by_cases h1 : x.toNat < y.toNat
      · simp [lexLt, h1]
      · by_cases h2 : y.toNat < x.toNat
        · simp [lexLt, h1, h2] at h
        · simp only [lexLt, if_neg h1, if_neg h2] at h ⊢
          exact ih ys s t hlen' h

/-! ### Characterization of the FILENAME_RE filter -/

theorem isPrefixOf_append (l t : List Char) : l.isPrefixOf (l ++ t) = true := by
  induction l with
  | nil => cases t <;> rfl
  | cons x xs ih => simp [List.isPrefixOf, ih]

theorem isPrefixOf_iff_exists (l s : List Char) :
    l.isPrefixOf s = true ↔ ∃ t, s = l ++ t := by
  induction l generalizing s with
  | nil =>
    constructor
    · intro _; exact ⟨s, rfl⟩
    · intro _; cases s <;> rfl
  | cons x xs ih =>
    cases s with
    | nil =>
      constructor
      · intro h; exact Bool.noConfusion h
      · rintro ⟨t, ht⟩; exact List.noConfusion ht
    | cons y ys =>
      simp only [List.isPrefixOf, Bool.and_eq_true, beq_iff_eq, ih]
      constructor
      · rintro ⟨rfl, t, rfl⟩; exact ⟨t, rfl⟩
      · rintro ⟨t, ht⟩
        injection ht with h1 h2
        exact ⟨h1.symm, t, h2⟩

theorem isNd_of_isDig {c : Char} (h : isDig c = true) : isNd c = true := by
  simp only [isDig, Bool.and_eq_true, decide_eq_true_eq] at h
  unfold isNd
  rw [List.any_eq_true]
  refine ⟨(48, 57), List.mem_cons_self _ _, ?_⟩
  simp only [Bool.and_eq_true, decide_eq_true_eq]
  exact ⟨h.1, h.2⟩

theorem allNd_of_allDigits {l : List Char} (h : allDigits l) : allNd l :=
  fun c hc => isNd_of_isDig (h c hc)

theorem digitsThen_complete (k : List Char → Bool) :
    ∀ a rest, a ≠ [] → allNd a → k rest = true → digitsThen k (a ++ rest) = true := by
  intro a
  induction a with
  | nil => intro rest h _ _; exact absurd rfl h
  | cons c cs ih =>
    intro rest _ hdig hk
    show digitsThen k (c :: (cs ++ rest)) = true
    simp only [digitsThen, Bool.and_eq_true, Bool.or_eq_true]
    refine ⟨hdig c (List.mem_cons_self _ _), ?_⟩
    cases cs with
    | nil => left; simpa using hk
    | cons d ds =>
      right
      exact ih rest (by simp) (fun e he => hdig e (List.mem_cons_of_mem _ he)) hk

theorem digitsThen_sound (k : List Char → Bool) :
    ∀ l, digitsThen k l = true →
    ∃ a rest, l = a ++ rest ∧ a ≠ [] ∧ allNd a ∧ k rest = true := by
  intro l
  induction l with
  | nil => intro h; exact Bool.noConfusion h
  | cons c cs ih =>
    intro h
    simp only [digitsThen, Bool.and_eq_true, Bool.or_eq_true] at h
    obtain ⟨hc, hrest⟩ := h
    rcases hrest with hk | hrec
    · refine ⟨[c], cs, rfl, by simp, ?_, hk⟩
      intro x hx
      simp only [List.mem_singleton] at hx
      subst hx; exact hc
    · obtain ⟨a, rest, heq, hne, hdig, hk⟩ := ih hrec
      refine ⟨c :: a, rest, by rw [heq]; rfl, by simp, ?_, hk⟩
      intro x hx
      rcases List.mem_cons.mp hx with rfl | hx
      · exact hc
      · exact hdig x hx

theorem dotJson_complete (c : Char) (post : List Char) (hc : c ≠ '\n') :
    dotJson (c :: (jsChars ++ post)) = true := by
  simp only [dotJson, Bool.and_eq_true, decide_eq_true_eq]
  exact ⟨hc, isPrefixOf_append _ _⟩

theorem dotJson_sound : ∀ l, dotJson l = true →
    ∃ c post, l = c :: (jsChars ++ post) ∧ c ≠ '\n' := by
  intro l h
  cases l with
  | nil => exact Bool.noConfusion h
  | cons c rest =>
    simp only [dotJson, Bool.and_eq_true, decide_eq_true_eq] at h
    obtain ⟨hc, hp⟩ := h
    obtain ⟨t, rfl⟩ := (isPrefixOf_iff_exists _ _).mp hp
    exact ⟨c, t, rfl, hc⟩

theorem afterTrapmail_complete (a b c : List Char) (ch : Char) (post : List Char)
    (ha : a ≠ []) (hb : b ≠ []) (hc : c ≠ []) (da : allNd a) (db : allNd b)
    (dc : allNd c) (hch : ch ≠ '\n') :
    afterTrapmail (a ++ '_' :: (b ++ '_' :: (c ++ ch :: (jsChars ++ post)))) = true := by
  unfold afterTrapmail
  apply digitsThen_complete reTail1 a ('_' :: (b ++ '_' :: (c ++ ch :: (jsChars ++ post)))) ha da
  show reTail1 ('_' :: (b ++ '_' :: (c ++ ch :: (jsChars ++ post)))) = true
  simp only [reTail1, Bool.and_eq_true, beq_self_eq_true, true_and]
  apply digitsThen_complete reTail2 b ('_' :: (c ++ ch :: (jsChars ++ post))) hb db
  show reTail2 ('_' :: (c ++ ch :: (jsChars ++ post))) = true
  simp only [reTail2, Bool.and_eq_true, beq_self_eq_true, true_and]
  apply digitsThen_complete dotJson c (ch :: (jsChars ++ post)) hc dc
  exact dotJson_complete ch post hch

theorem afterTrapmail_sound (l : List Char) (h : afterTrapmail l = true) :
    ∃ a b c ch post,
      l = a ++ '_' :: (b ++ '_' :: (c ++ ch :: (jsChars ++ post))) ∧
      a ≠ [] ∧ b ≠ [] ∧ c ≠ [] ∧ allNd a ∧ allNd b ∧ allNd c ∧ ch ≠ '\n' := by
  obtain ⟨a, rest1, rfl, ha, da, h1⟩ := digitsThen_sound _ _ h
  cases rest1 with
  | nil => exact Bool.noConfusion h1
  | cons u rest2 =>
    simp only [reTail1, Bool.and_eq_true, beq_iff_eq] at h1
    obtain ⟨rfl, h2⟩ := h1
    obtain ⟨b, rest3, rfl, hb, db, h3⟩ := digitsThen_sound _ _ h2
    cases rest3 with
    | nil => exact Bool.noConfusion h3
    | cons v rest4 =>
      simp only [reTail2, Bool.and_eq_true, beq_iff_eq] at h3
      obtain ⟨rfl, h4⟩ := h3
      obtain ⟨c, rest5, rfl, hc, dc, h5⟩ := digitsThen_sound _ _ h4
      obtain ⟨ch, post, rfl, hch⟩ := dotJson_sound _ h5
      exact ⟨a, b, c, ch, post, rfl, ha, hb, hc, da, db, dc, hch⟩

theorem matchAt_complete (rest : List Char) (h : afterTrapmail rest = true) :
    matchAt (tpChars ++ rest) = true := by
  unfold matchAt
  rw [isPrefixOf_append]
  have hd : (tpChars ++ rest).drop 9 = rest := by
    have h9 : tpChars.length = 9 := rfl
    rw [← h9, List.drop_left]
  rw [hd, h]
  rfl

theorem matchAt_sound (l : List Char) (h : matchAt l = true) :
    ∃ rest, l = tpChars ++ rest ∧ afterTrapmail rest = true := by
  unfold matchAt at h
  rw [Bool.and_eq_true] at h
  obtain ⟨hp, ha⟩ := h
  obtain ⟨t, rfl⟩ := (isPrefixOf_iff_exists _ _).mp hp
  have hd : (tpChars ++ t).drop 9 = t := by
    have h9 : tpChars.length = 9 := rfl
    rw [← h9, List.drop_left]
  rw [hd] at ha
  exact ⟨t, rfl, ha⟩

theorem is_match_of_matchAt : ∀ pre suffix : List Char, matchAt suffix = true →
    FILENAME_RE_is_match (pre ++ suffix) = true := by
  intro pre
  induction pre with
  | nil =>
    intro s h
    cases s with
    | nil => exact Bool.noConfusion h
    | cons c rest =>
      show FILENAME_RE_is_match (c :: rest) = true
      simp only [FILENAME_RE_is_match, Bool.or_eq_true]
      left; exact h
  | cons x xs ih =>
    intro s h
    show FILENAME_RE_is_match (x :: (xs ++ s)) = true
    simp only [FILENAME_RE_is_match, Bool.or_eq_true]
    right; exact ih s h

theorem is_match_sound : ∀ l, FILENAME_RE_is_match l = true →
    ∃ pre suffix, l = pre ++ suffix ∧ matchAt suffix = true := by
  intro l
  induction l with
  | nil => intro h; exact Bool.noConfusion h
  | cons c rest ih =>
    intro h
    simp only [FILENAME_RE_is_match, Bool.or_eq_true] at h
    rcases h with h | h
    · exact ⟨[], c :: rest, rfl, h⟩
    · obtain ⟨pre, suffix, heq, hm⟩ := ih h
      exact ⟨c :: pre, suffix, by rw [heq]; rfl, hm⟩

theorem reMatch_of_spec (l : List Char) (h : reMatchSpec l) :
    FILENAME_RE_is_match l = true := by
  obtain ⟨pre, a, b, c, ch, post, rfl, ha, hb, hc, da, db, dc, hch⟩ := h
  apply is_match_of_matchAt
  apply matchAt_complete
  exact afterTrapmail_complete a b c ch post ha hb hc da db dc hch

theorem reMatch_spec_of (l : List Char) (h : FILENAME_RE_is_match l = true) :
    reMatchSpec l := by
  obtain ⟨pre, suffix, rfl, hm⟩ := is_match_sound l h
  obtain ⟨rest, rfl, ha⟩ := matchAt_sound suffix hm
  obtain ⟨a, b, c, ch, post, rfl, h1, h2, h3, h4, h5, h6, h7⟩ := afterTrapmail_sound rest ha
  exact ⟨pre, a, b, c, ch, post, rfl, h1, h2, h3, h4, h5, h6, h7⟩

theorem reMatchSpec_of_canonical (l : List Char) (h : canonicalSpec l) : reMatchSpec l := by
  obtain ⟨a, b, c, rfl, ha, hb, hc, da, db, dc⟩ := h
  exact ⟨[], a, b, c, '.', [], by simp, ha, hb, hc, allNd_of_allDigits da,
    allNd_of_allDigits db, allNd_of_allDigits dc, by decide⟩

theorem file_name_canonical (m : Mail) (hp : 0 ≤ m.pid) (hpp : 0 ≤ m.ppid) :
    canonicalSpec (Mail.file_name m) := by
  refine ⟨natToDec m.timestamp_us, natToDec m.ppid.toNat, natToDec m.pid.toNat, ?_,
    natToDec_ne_nil _, natToDec_ne_nil _, natToDec_ne_nil _,
    natToDec_digits _, natToDec_digits _, natToDec_digits _⟩
  unfold Mail.file_name intDec
  rw [if_neg (by omega : ¬ m.ppid < 0), if_neg (by omega : ¬ m.pid < 0)]

theorem file_name_matches (m : Mail) (hp : 0 ≤ m.pid) (hpp : 0 ≤ m.ppid) :
    FILENAME_RE_is_match (Mail.file_name m) = true :=
  reMatch_of_spec _ (reMatchSpec_of_canonical _ (file_name_canonical m hp hpp))

/-! ### Exact-shape parser lemmas -/

theorem takeWhile_all_marker (p : Char → Bool) :
    ∀ (A : List Char) (x : Char) (R : List Char), (∀ c ∈ A, p c = true) → p x = false →
    (A ++ x :: R).takeWhile p = A ∧ (A ++ x :: R).dropWhile p = x :: R := by
  intro A
  induction A with
  | nil =>
    intro x R _ hx
    constructor
    · simp [List.takeWhile_cons, hx]
    · simp [List.dropWhile_cons, hx]
  | cons a as ih =>
    intro x R hA hx
    have ha : p a = true := hA a (List.mem_cons_self _ _)
    have ih' := ih x R (fun c hc => hA c (List.mem_cons_of_mem _ hc)) hx
    constructor
    · simp [List.takeWhile_cons, ha, ih'.1]
    · simp [List.dropWhile_cons, ha, ih'.2]

theorem drop_nine_tp (X : List Char) : (tpChars ++ X).drop 9 = X := by
  rw [show (9 : Nat) = tpChars.length from rfl, List.drop_left]

theorem parse_canonical (A B C : List Char) (hA : A ≠ []) (hB : B ≠ []) (hC : C ≠ [])
    (dA : allDigits A) (dB : allDigits B) (dC : allDigits C) :
    parseFileName (tpChars ++ (A ++ '_' :: (B ++ '_' :: (C ++ '.' :: jsChars))))
      = some (decValue A, decValue B, decValue C) := by
  obtain ⟨a0, A', rfl⟩ := List.exists_cons_of_ne_nil hA
  obtain ⟨b0, B', rfl⟩ := List.exists_cons_of_ne_nil hB
  obtain ⟨c0, C', rfl⟩ := List.exists_cons_of_ne_nil hC
  have hu : isDig '_' = false := rfl
  have hdot : isDig '.' = false := rfl
  have t1 := takeWhile_all_marker isDig (a0 :: A') '_'
    ((b0 :: B') ++ '_' :: ((c0 :: C') ++ '.' :: jsChars)) dA hu
  have t2 := takeWhile_all_marker isDig (b0 :: B') '_'
    ((c0 :: C') ++ '.' :: jsChars) dB hu
  have t3 := takeWhile_all_marker isDig (c0 :: C') '.' jsChars dC hdot
  unfold parseFileName
  rw [if_pos (isPrefixOf_append _ _), drop_nine_tp]
  simp only [t1.1, t1.2, t2.1, t2.2, t3.1, t3.2]
  simp

theorem parse_file_name (m : Mail) (hp : 0 ≤ m.pid) (hpp : 0 ≤ m.ppid) :
    parseFileName (Mail.file_name m) = some (m.timestamp_us, m.ppid.toNat, m.pid.toNat) := by
  have h1 : Mail.file_name m = tpChars ++ (natToDec m.timestamp_us ++ '_' ::
      (natToDec m.ppid.toNat ++ '_' :: (natToDec m.pid.toNat ++ '.' :: jsChars))) := by
    unfold Mail.file_name intDec
    rw [if_neg (by omega : ¬ m.ppid < 0), if_neg (by omega : ¬ m.pid < 0)]
  rw [h1, parse_canonical _ _ _ (natToDec_ne_nil _) (natToDec_ne_nil _) (natToDec_ne_nil _)
    (natToDec_digits _) (natToDec_digits _) (natToDec_digits _),
    decValue_natToDec, decValue_natToDec, decValue_natToDec]

theorem file_name_inj (m₁ m₂ : Mail) (hp₁ : 0 ≤ m₁.pid) (hpp₁ : 0 ≤ m₁.ppid)
    (hp₂ : 0 ≤ m₂.pid) (hpp₂ : 0 ≤ m₂.ppid)
    (h : Mail.file_name m₁ = Mail.file_name m₂) :
    m₁.timestamp_us = m₂.timestamp_us ∧ m₁.ppid = m₂.ppid ∧ m₁.pid = m₂.pid := by
  have hparse := parse_file_name m₁ hp₁ hpp₁
  rw [h, parse_file_name m₂ hp₂ hpp₂] at hparse
  simp only [Option.some.injEq, Prod.mk.injEq] at hparse
  obtain ⟨h1, h2, h3⟩ := hparse
  refine ⟨h1.symm, ?_, ?_⟩
  · rw [← Int.toNat_of_nonneg hpp₁, ← Int.toNat_of_nonneg hpp₂, h2]
  · rw [← Int.toNat_of_nonneg hp₁, ← Int.toNat_of_nonneg hp₂, h3]

theorem file_name_ne_of_ts (m₁ m₂ : Mail) (hts : m₁.timestamp_us ≠ m₂.timestamp_us)
    (hpp : m₁.ppid = m₂.ppid) (hp : m₁.pid = m₂.pid) :
    Mail.file_name m₁ ≠ Mail.file_name m₂ := by
  intro h
  unfold Mail.file_name at h
  rw [hpp, hp] at h
  have h2 := List.append_cancel_left h
  have h3 := List.append_cancel_right h2
  exact hts (natToDec_inj h3)

theorem file_name_lt (m₁ m₂ : Mail) (hpp : m₁.ppid = m₂.ppid) (hp : m₁.pid = m₂.pid)
    (hlen : (natToDec m₁.timestamp_us).length = (natToDec m₂.timestamp_us).length)
    (hts : m₁.timestamp_us < m₂.timestamp_us) :
    lexLt (Mail.file_name m₁) (Mail.file_name m₂) = true := by
  unfold Mail.file_name
  rw [hpp, hp, lexLt_append_same]
  apply lexLt_append_of_samelen _ _ _ _ hlen
  apply lexLt_of_decValue_lt _ _ (natToDec_digits _) (natToDec_digits _) hlen
  rw [decValue_natToDec, decValue_natToDec]
  exact hts

/-! ### Serialization round-trip lemmas -/

theorem decodeStrList_map (l : List String) : decodeStrList (l.map Json.str) = some l := by
  induction l with
  | nil => rfl
  | cons s rest ih => simp [decodeStrList, ih]

theorem decodeByteList_map : ∀ l : List Nat, (∀ b ∈ l, b < 256) →
    decodeByteList (l.map fun b => Json.num (Int.ofNat b)) = some l := by
  intro l
  induction l with
  | nil => intro _; rfl
  | cons b rest ih =>
    intro hl
    have hb : b < 256 := hl b (List.mem_cons_self _ _)
    have hrest := ih (fun x hx => hl x (List.mem_cons_of_mem _ hx))
    simp only [List.map_cons, decodeByteList]
    rw [if_pos ⟨Int.ofNat_nonneg b, by exact Int.ofNat_lt.mpr hb⟩, hrest]
    rfl

theorem cli_roundtrip (c : CliOptions) : ∀ j, cliToJson c = some j → cliFromJson j = some c := by
  intro j hj
  obtain ⟨d, i, r, addrs, dmp⟩ := c
  cases dmp with
  | none =>
    have hj' : j = Json.obj
        [("debug", Json.bool d), ("ignore_dots", Json.bool i),
         ("inline_recipients", Json.bool r),
         ("addresses", Json.arr (addrs.map Json.str)), ("dump", Json.null)] := by
      simp only [cliToJson, dumpToJson, Option.some.injEq] at hj
      exact hj.symm
    subst hj'
    simp [cliFromJson, lookupField, decodeStrList_map, dumpFromJson]
  | some p =>
    cases p with
    | utf8 s =>
      have hj' : j = Json.obj
          [("debug", Json.bool d), ("ignore_dots", Json.bool i),
           ("inline_recipients", Json.bool r),
           ("addresses", Json.arr (addrs.map Json.str)), ("dump", Json.str s)] := by
        simp only [cliToJson, dumpToJson, Option.some.injEq] at hj
        exact hj.symm
      subst hj'
      simp [cliFromJson, lookupField, decodeStrList_map, dumpFromJson]
    | nonUtf8 t =>
      simp only [cliToJson, dumpToJson] at hj
      exact Option.noConfusion hj

theorem mail_roundtrip (m : Mail) (hb : ∀ b ∈ m.raw_body, b < 256) :
    ∀ j, mailToJson m = some j → mailFromJson j = some m := by
  intro j hj
  obtain ⟨c, pid, ppid, raw, ts⟩ := m
  simp only [mailToJson] at hj
  cases hcj : cliToJson c with
  | none => rw [hcj] at hj; exact Option.noConfusion hj
  | some cj =>
    rw [hcj] at hj
    have hj' : j = Json.obj
        [("cli_options", cj), ("pid", Json.num pid), ("ppid", Json.num ppid),
         ("raw_body", Json.arr (raw.map fun b => Json.num (Int.ofNat b))),
         ("timestamp_us", Json.num (Int.ofNat ts))] := by
      injection hj with h
      exact h.symm
    subst hj'
    have hcli := cli_roundtrip c cj hcj
    have hbytes := decodeByteList_map raw (by simpa using hb)
    simp only [Int.ofNat_eq_coe] at hbytes
    simp [mailFromJson, lookupField, hcli, hbytes, Int.ofNat_eq_coe]

theorem mailToJson_total (m : Mail) (h : dumpOk m.cli_options.dump = true) :
    ∃ j, mailToJson m = some j := by
  have hs : (mailToJson m).isSome = true := by
    unfold mailToJson cliToJson
    cases hd : m.cli_options.dump with
    | none => rfl
    | some p =>
      cases p with
      | utf8 s => rfl
      | nonUtf8 t =>
        rw [hd] at h
        exact Bool.noConfusion h
  exact Option.isSome_iff_exists.mp hs

/-! ### Store lemmas -/

theorem lookupStore_insert_self (s : Store) (n : List Char) (c : FileContent) :
    lookupStore (storeInsert n c s) n = some c := by
  induction s with
  | nil => simp [storeInsert, lookupStore]
  | cons e rest ih =>
    obtain ⟨en, ec⟩ := e
    by_cases he : en = OsString.valid n
    · simp [storeInsert, he, lookupStore]
    · simp [storeInsert, he, lookupStore, ih]

theorem lookupStore_insert_ne (s : Store) (n n' : List Char) (c : FileContent)
    (h : n' ≠ n) : lookupStore (storeInsert n c s) n' = lookupStore s n' := by
  have hne : OsString.valid n ≠ OsString.valid n' := by
    intro heq
    injection heq with he
    exact h he.symm
  induction s with
  | nil => simp [storeInsert, lookupStore, hne]
  | cons e rest ih =>
    obtain ⟨en, ec⟩ := e
    by_cases he : en = OsString.valid n
    · subst he
      simp [storeInsert, lookupStore, hne]
    · by_cases he' : en = OsString.valid n'
      · simp [storeInsert, lookupStore, he, he', h]
      · simp [storeInsert, lookupStore, he, he', ih]

theorem storeInsert_twice (s : Store) (n : List Char) (c₁ c₂ : FileContent) :
    storeInsert n c₂ (storeInsert n c₁ s) = storeInsert n c₂ s := by
  induction s with
  | nil => simp [storeInsert]
  | cons e rest ih =>
    obtain ⟨en, ec⟩ := e
    by_cases he : en = OsString.valid n
    · simp [storeInsert, he]
    · simp [storeInsert, he, ih]

theorem storeInsert_append_of_not_mem (s : Store) (n : List Char) (c : FileContent)
    (h : OsString.valid n ∉ s.map Prod.fst) :
    storeInsert n c s = s ++ [(OsString.valid n, c)] := by
  induction s with
  | nil => rfl
  | cons e rest ih =>
    obtain ⟨en, ec⟩ := e
    simp only [List.map_cons, List.mem_cons] at h
    push_neg at h
    have h1 : en ≠ OsString.valid n := fun heq => h.1 heq.symm
    simp [storeInsert, h1, ih h.2]

theorem MailStore_add_eq (s : Store) (m : Mail) (j : Json) (hj : mailToJson m = some j) :
    MailStore.add s m = (Except.ok (Mail.file_name m),
      storeInsert (Mail.file_name m) (FileContent.json j) s) := by
  unfold MailStore.add
  rw [hj]
  show (Except.ok (Mail.file_name m),
      storeInsert (Mail.file_name m) (FileContent.json j)
        (storeInsert (Mail.file_name m) (FileContent.malformed 0) s)) = _
  rw [storeInsert_twice]

/-! ### Claim theorems -/

/-- A fixed, serializable set of command-line options used by concrete
witnesses. -/
def cliD : CliOptions := ⟨false, false, false, [], none⟩

/-- C2: deserializing the document produced by serializing any record `r`
yields a record whose every attribute equals `r`'s, including raw bodies
holding arbitrary byte values (null bytes, non-UTF-8 sequences); the first
hypothesis says each element of the `Vec<u8>` body is a byte. -/
theorem C2_serialize_roundtrip (m : Mail) (hb : ∀ b ∈ m.raw_body, b < 256)
    (j : Json) (hj : mailToJson m = some j) : mailFromJson j = some m :=
  mail_roundtrip m hb j hj

/-- Concrete record for the C2 witness: its body holds a null byte, an
invalid-UTF-8 continuation byte, and 255. -/
def C2m : Mail :=
  ⟨⟨true, false, true, ["a@b", ""], some (PathBuf.utf8 "/tmp/x")⟩, 5, 7, [0, 128, 255], 123⟩

/-- The serialized document of `C2m`. -/
def C2j : Json := (mailToJson C2m).getD Json.null

theorem C2_witness : mailFromJson C2j = some C2m :=
  C2_serialize_roundtrip C2m (by decide) C2j rfl

/-- C3 (counterexample): the claim says a directory entry name is kept if
and only if the WHOLE name has the canonical shape
`trapmail_<digits>_<digits>_<digits>.json`; but `xtrapmail_1_2_3xjson` is
kept by the filter (the regex is unanchored and its dot unescaped) although
it does not have that shape. -/
theorem C3_counterexample :
    FILENAME_RE_is_match
        ['x', 't', 'r', 'a', 'p', 'm', 'a', 'i', 'l', '_', '1', '_', '2', '_', '3',
         'x', 'j', 's', 'o', 'n'] = true ∧
    ¬ canonicalSpec
        ['x', 't', 'r', 'a', 'p', 'm', 'a', 'i', 'l', '_', '1', '_', '2', '_', '3',
         'x', 'j', 's', 'o', 'n'] := by
  refine ⟨rfl, ?_⟩
  rintro ⟨a, b, c, heq, -, -, -, -, -, -⟩
  have hh := congrArg List.head? heq
  rw [show (tpChars ++ (a ++ '_' :: (b ++ '_' :: (c ++ '.' :: jsChars)))).head?
      = some 't' from rfl] at hh
  injection hh with hc
  exact absurd hc (by decide)

/-- C3 (amended): enumeration keeps an entry name if and only if the name
CONTAINS a substring `trapmail_<digits>_<digits>_<digits><ch>json`, where
`ch` is any single non-newline character; in particular every
canonically-shaped name is kept, but the filter is neither anchored to the
whole name nor does it demand a literal dot (it is case sensitive). -/
theorem C3_match_characterization (l : List Char) :
    FILENAME_RE_is_match l = true ↔ reMatchSpec l :=
  ⟨reMatch_spec_of l, reMatch_of_spec l⟩

/-- Directory holding a single entry whose name is not valid UTF-8. -/
def C4dir : Store := [(OsString.invalid 255, FileContent.malformed 0)]

/-- C4 (code bug): a directory entry whose name is not valid UTF-8 makes
`iter_mails` panic (modelled as `none`) in the `OsString → String`
`.expect(..)`, because the conversion happens BEFORE the filename filter —
contradicting both the claim (such entries are skipped silently) and the
`expect` message itself, which assumes names were prefiltered. -/
theorem C4_panic_on_invalid_name : iter_mails C4dir C4dir = none := rfl

/-- C5: for every record (with the real, nonnegative process ids),
`file_name` is exactly `trapmail_` ++ decimal(timestamp_us) ++ `_` ++
decimal(ppid) ++ `_` ++ decimal(pid) ++ `.json`: each field the exact
unpadded decimal numeral of its value, the parent process id field
preceding the process id field, and a literal `.json` tail. -/
theorem C5_file_name_format (m : Mail) (hp : 0 ≤ m.pid) (hpp : 0 ≤ m.ppid) :
    Mail.file_name m = tpChars ++ (natToDec m.timestamp_us ++ '_' ::
      (natToDec m.ppid.toNat ++ '_' :: (natToDec m.pid.toNat ++ '.' :: jsChars))) ∧
    decimalRep (natToDec m.timestamp_us) m.timestamp_us ∧
    decimalRep (natToDec m.ppid.toNat) m.ppid.toNat ∧
    decimalRep (natToDec m.pid.toNat) m.pid.toNat := by
  refine ⟨?_, natToDec_decimalRep _, natToDec_decimalRep _, natToDec_decimalRep _⟩
  unfold Mail.file_name intDec
  rw [if_neg (by omega : ¬ m.ppid < 0), if_neg (by omega : ¬ m.pid < 0)]

/-- Concrete record for the C5 witness. -/
def C5m : Mail := ⟨cliD, 1, 2, [], 10⟩

theorem C5_witness :
    Mail.file_name C5m = tpChars ++ (natToDec C5m.timestamp_us ++ '_' ::
      (natToDec C5m.ppid.toNat ++ '_' :: (natToDec C5m.pid.toNat ++ '.' :: jsChars))) ∧
    decimalRep (natToDec C5m.timestamp_us) C5m.timestamp_us ∧
    decimalRep (natToDec C5m.ppid.toNat) C5m.ppid.toNat ∧
    decimalRep (natToDec C5m.pid.toNat) C5m.pid.toNat :=
  C5_file_name_format C5m (by decide) (by decide)

/-- C8: two records constructed sequentially in one process (same pid/ppid)
have different `timestamp_us` and different `file_name`: the constructor's
unconditional 1000 ns sleep forces the second clock read (`t₂`) at least
one microsecond after the first (`t₁`), under a monotone wall clock. -/
theorem C8_sequential_distinct (cli₁ cli₂ : CliOptions) (raw₁ raw₂ : List Nat)
    (pid ppid : Int) (t₁ t₂ : Nat) (h : t₁ + 1000 ≤ t₂) :
    (Mail.new cli₂ raw₂ pid ppid t₂).timestamp_us
      ≠ (Mail.new cli₁ raw₁ pid ppid t₁).timestamp_us ∧
    Mail.file_name (Mail.new cli₂ raw₂ pid ppid t₂)
      ≠ Mail.file_name (Mail.new cli₁ raw₁ pid ppid t₁) := by
  have hts : t₁ / 1000 < t₂ / 1000 := by
    have h1 : (t₁ + 1000) / 1000 ≤ t₂ / 1000 := Nat.div_le_div_right h
    rw [Nat.add_div_right _ (by norm_num)] at h1
    omega
  have htsne : (Mail.new cli₂ raw₂ pid ppid t₂).timestamp_us
      ≠ (Mail.new cli₁ raw₁ pid ppid t₁).timestamp_us := by
    show t₂ / 1000 ≠ t₁ / 1000
    omega
  exact ⟨htsne, file_name_ne_of_ts _ _ htsne rfl rfl⟩

theorem C8_witness :
    (Mail.new cliD [] 1 2 1000).timestamp_us ≠ (Mail.new cliD [] 1 2 0).timestamp_us ∧
    Mail.file_name (Mail.new cliD [] 1 2 1000) ≠ Mail.file_name (Mail.new cliD [] 1 2 0) :=
  C8_sequential_distinct cliD cliD [] [] 1 2 0 1000 (by decide)

/-- C9: `add` is not atomic with respect to serialization failure — the
destination file is created first, so when encoding fails (here: a
non-UTF-8 `dump` path), `add` returns a `MailSerialization` error while the
newly created file remains in the store directory with malformed
(empty/partial) contents. -/
theorem C9_add_not_atomic (s : Store) (m : Mail) (k : Nat)
    (h : m.cli_options.dump = some (PathBuf.nonUtf8 k)) :
    MailStore.add s m = (Except.error Error.MailSerialization,
      storeInsert (Mail.file_name m) (FileContent.malformed 0) s) := by
  have hser : mailToJson m = none := by
    unfold mailToJson cliToJson
    rw [h]
    rfl
  unfold MailStore.add
  rw [hser]

/-- Concrete record for the C9 witness: its `dump` path is not valid
UTF-8, so serialization fails. -/
def C9m : Mail := ⟨⟨false, false, false, [], some (PathBuf.nonUtf8 0)⟩, 1, 2, [], 3⟩

theorem C9_witness : MailStore.add [] C9m = (Except.error Error.MailSerialization,
    [(OsString.valid (Mail.file_name C9m), FileContent.malformed 0)]) :=
  C9_add_not_atomic [] C9m 0 rfl

/-- C10: the identity triple is exactly recoverable by parsing the three
underscore-separated decimal fields of the name, and consequently
`file_name` is injective on (timestamp_us, ppid, pid) for records with
nonnegative process ids: triples that differ give different names. -/
theorem C10_file_name_injective (m₁ m₂ : Mail)
    (hp₁ : 0 ≤ m₁.pid) (hpp₁ : 0 ≤ m₁.ppid) (hp₂ : 0 ≤ m₂.pid) (hpp₂ : 0 ≤ m₂.ppid) :
    parseFileName (Mail.file_name m₁)
      = some (m₁.timestamp_us, m₁.ppid.toNat, m₁.pid.toNat) ∧
    ((m₁.timestamp_us, m₁.ppid, m₁.pid) ≠ (m₂.timestamp_us, m₂.ppid, m₂.pid) →
      Mail.file_name m₁ ≠ Mail.file_name m₂) := by
  refine ⟨parse_file_name m₁ hp₁ hpp₁, ?_⟩
  intro hne heq
  obtain ⟨h1, h2, h3⟩ := file_name_inj m₁ m₂ hp₁ hpp₁ hp₂ hpp₂ heq
  exact hne (by rw [h1, h2, h3])

/-- Concrete records for the C10 witness: same timestamp and ppid,
different pid. -/
def C10a : Mail := ⟨cliD, 1, 2, [], 10⟩

/-- Second concrete record for the C10 witness. -/
def C10b : Mail := ⟨cliD, 3, 2, [], 10⟩

theorem C10_witness :
    parseFileName (Mail.file_name C10a)
      = some (C10a.timestamp_us, C10a.ppid.toNat, C10a.pid.toNat) ∧
    Mail.file_name C10a ≠ Mail.file_name C10b :=
  ⟨(C10_file_name_injective C10a C10b (by decide) (by decide) (by decide) (by decide)).1,
   (C10_file_name_injective C10a C10b (by decide) (by decide) (by decide) (by decide)).2
     (by decide)⟩

/-- Concrete record for the C1 evaluation. -/
def C1m : Mail := ⟨cliD, 1, 2, [], 3⟩

/-- C1 (code bug): `add` succeeds and writes the record into the store's
ROOT directory, but `iter_mails` passes each collected bare file name to
`Mail::load`, which opens it as a relative path resolved in the process's
CURRENT WORKING DIRECTORY (the source never joins `self.root` back on).
With the cwd elsewhere (modelled by an empty cwd directory), enumeration
yields a `Load` error instead of the added record, so the add-then-list
round trip holds only when the cwd IS the store root (third conjunct) —
not "regardless of the current working directory" as claimed. -/
theorem C1_add_iter_cwd :
    (MailStore.add [] C1m).1 = Except.ok (Mail.file_name C1m) ∧
    iter_mails (MailStore.add [] C1m).2 [] = some [Except.error Error.Load] ∧
    iter_mails (MailStore.add [] C1m).2 (MailStore.add [] C1m).2
      = some [Except.ok C1m] :=
  ⟨rfl, rfl, rfl⟩

/-- The canonical name of the corrupted file in C7. -/
def C7corrupt : List Char := String.toList ("trapmail_1_2_3.json")

/-- C7: a store directory holding one corrupted (malformed) file with the
canonical name `trapmail_1_2_3.json` alongside one valid record file:
enumeration (run with the store root as the cwd, see C1) yields exactly two
elements in filename order — a `MailDeserialization` error at the corrupt
file's position and the successfully loaded record; the corrupt file does
not abort enumeration of the rest. -/
theorem C7_corrupt_isolated (m : Mail) (j : Json)
    (hp : 0 ≤ m.pid) (hpp : 0 ≤ m.ppid)
    (hj : mailToJson m = some j) (hb : ∀ b ∈ m.raw_body, b < 256)
    (hne : Mail.file_name m ≠ C7corrupt) :
    iter_mails
        [(OsString.valid C7corrupt, FileContent.malformed 0),
         (OsString.valid (Mail.file_name m), FileContent.json j)]
        [(OsString.valid C7corrupt, FileContent.malformed 0),
         (OsString.valid (Mail.file_name m), FileContent.json j)] =
      some (if lexLe C7corrupt (Mail.file_name m) = true then
          [Except.error Error.MailDeserialization, Except.ok m]
        else [Except.ok m, Except.error Error.MailDeserialization]) := by
  have hm1 : FILENAME_RE_is_match C7corrupt = true := rfl
  have hm2 := file_name_matches m hp hpp
  have hos : OsString.valid C7corrupt ≠ OsString.valid (Mail.file_name m) := by
    intro heq
    injection heq with h
    exact hne h.symm
  have hload1 : Mail.load
      [(OsString.valid C7corrupt, FileContent.malformed 0),
       (OsString.valid (Mail.file_name m), FileContent.json j)] C7corrupt
      = Except.error Error.MailDeserialization := by
    simp [Mail.load, lookupStore]
  have hload2 : Mail.load
      [(OsString.valid C7corrupt, FileContent.malformed 0),
       (OsString.valid (Mail.file_name m), FileContent.json j)] (Mail.file_name m)
      = Except.ok m := by
    simp [Mail.load, lookupStore, hos, mail_roundtrip m hb j hj]
  unfold iter_mails
  rw [show (List.map Prod.fst
      [(OsString.valid C7corrupt, FileContent.malformed 0),
       (OsString.valid (Mail.file_name m), FileContent.json j)])
      = [OsString.valid C7corrupt, OsString.valid (Mail.file_name m)] from rfl]
  rw [show collectNames [OsString.valid C7corrupt, OsString.valid (Mail.file_name m)]
      = some [C7corrupt, Mail.file_name m] from by simp [collectNames, hm1, hm2]]
  show some ((sortLex [C7corrupt, Mail.file_name m]).map _) = _
  simp only [sortLex, insertLex]
  by_cases hle : lexLe C7corrupt (Mail.file_name m) = true
  · rw [if_pos hle, if_pos hle]
    simp [hload1, hload2]
  · rw [if_neg hle, if_neg hle]
    simp [hload1, hload2]

/-- Concrete record for the C7 witness. -/
def C7m : Mail := ⟨cliD, 1, 2, [], 10⟩

/-- The serialized document of `C7m`. -/
def C7j : Json := (mailToJson C7m).getD Json.null

/-- The C7 witness store: one corrupt canonical file, one valid record. -/
def S7 : Store :=
  [(OsString.valid C7corrupt, FileContent.malformed 0),
   (OsString.valid (Mail.file_name C7m), FileContent.json C7j)]

theorem C7_witness :
    iter_mails S7 S7 = some [Except.ok C7m, Except.error Error.MailDeserialization] := by
  have h := C7_corrupt_isolated C7m C7j (by decide) (by decide) rfl (by decide) (by decide)
  rw [if_neg (by decide : ¬ lexLe C7corrupt (Mail.file_name C7m) = true)] at h
  exact h

/-- C6: three records from the same process, added to an empty store in
strictly increasing timestamp order (construction order; see C8), all of
whose timestamps have the same decimal digit count: enumeration (with the
store root as the cwd, see C1) yields them in construction order. -/
theorem C6_iter_order (m₁ m₂ m₃ : Mail) (j₁ j₂ j₃ : Json)
    (hp : 0 ≤ m₁.pid) (hpp : 0 ≤ m₁.ppid)
    (hpid₂ : m₂.pid = m₁.pid) (hppid₂ : m₂.ppid = m₁.ppid)
    (hpid₃ : m₃.pid = m₁.pid) (hppid₃ : m₃.ppid = m₁.ppid)
    (ht₁₂ : m₁.timestamp_us < m₂.timestamp_us) (ht₂₃ : m₂.timestamp_us < m₃.timestamp_us)
    (hlen₁₂ : (natToDec m₁.timestamp_us).length = (natToDec m₂.timestamp_us).length)
    (hlen₂₃ : (natToDec m₂.timestamp_us).length = (natToDec m₃.timestamp_us).length)
    (hj₁ : mailToJson m₁ = some j₁) (hj₂ : mailToJson m₂ = some j₂)
    (hj₃ : mailToJson m₃ = some j₃)
    (hb₁ : ∀ b ∈ m₁.raw_body, b < 256) (hb₂ : ∀ b ∈ m₂.raw_body, b < 256)
    (hb₃ : ∀ b ∈ m₃.raw_body, b < 256) :
    iter_mails (MailStore.add (MailStore.add (MailStore.add [] m₁).2 m₂).2 m₃).2
        (MailStore.add (MailStore.add (MailStore.add [] m₁).2 m₂).2 m₃).2
      = some [Except.ok m₁, Except.ok m₂, Except.ok m₃] := by
  have hp₂ : 0 ≤ m₂.pid := by rw [hpid₂]; exact hp
  have hpp₂ : 0 ≤ m₂.ppid := by rw [hppid₂]; exact hpp
  have hp₃ : 0 ≤ m₃.pid := by rw [hpid₃]; exact hp
  have hpp₃ : 0 ≤ m₃.ppid := by rw [hppid₃]; exact hpp
  have hne₁₂ : Mail.file_name m₁ ≠ Mail.file_name m₂ :=
    file_name_ne_of_ts m₁ m₂ (Nat.ne_of_lt ht₁₂) hppid₂.symm hpid₂.symm
  have hne₁₃ : Mail.file_name m₁ ≠ Mail.file_name m₃ :=
    file_name_ne_of_ts m₁ m₃ (Nat.ne_of_lt (Nat.lt_trans ht₁₂ ht₂₃)) hppid₃.symm hpid₃.symm
  have hne₂₃ : Mail.file_name m₂ ≠ Mail.file_name m₃ :=
    file_name_ne_of_ts m₂ m₃ (Nat.ne_of_lt ht₂₃) (by rw [hppid₂, hppid₃]) (by rw [hpid₂, hpid₃])
  have hS₁ : (MailStore.add [] m₁).2
      = [(OsString.valid (Mail.file_name m₁), FileContent.json j₁)] := by
    rw [MailStore_add_eq [] m₁ j₁ hj₁]
    rfl
  have hS₂ : (MailStore.add
        [(OsString.valid (Mail.file_name m₁), FileContent.json j₁)] m₂).2
      = [(OsString.valid (Mail.file_name m₁), FileContent.json j₁),
         (OsString.valid (Mail.file_name m₂), FileContent.json j₂)] := by
    rw [MailStore_add_eq _ m₂ j₂ hj₂]
    show storeInsert (Mail.file_name m₂) (FileContent.json j₂) _ = _
    rw [storeInsert_append_of_not_mem _ _ _ (by simp [hne₁₂.symm])]
    rfl
  have hS₃ : (MailStore.add
        [(OsString.valid (Mail.file_name m₁), FileContent.json j₁),
         (OsString.valid (Mail.file_name m₂), FileContent.json j₂)] m₃).2
      = [(OsString.valid (Mail.file_name m₁), FileContent.json j₁),
         (OsString.valid (Mail.file_name m₂), FileContent.json j₂),
         (OsString.valid (Mail.file_name m₃), FileContent.json j₃)] := by
    rw [MailStore_add_eq _ m₃ j₃ hj₃]
    show storeInsert (Mail.file_name m₃) (FileContent.json j₃) _ = _
    rw [storeInsert_append_of_not_mem _ _ _ (by simp [hne₁₃.symm, hne₂₃.symm])]
    rfl
  have hchain : (MailStore.add (MailStore.add (MailStore.add [] m₁).2 m₂).2 m₃).2
      = [(OsString.valid (Mail.file_name m₁), FileContent.json j₁),
         (OsString.valid (Mail.file_name m₂), FileContent.json j₂),
         (OsString.valid (Mail.file_name m₃), FileContent.json j₃)] := by
    rw [hS₁, hS₂, hS₃]
  have hm₁ := file_name_matches m₁ hp hpp
  have hm₂ := file_name_matches m₂ hp₂ hpp₂
  have hm₃ := file_name_matches m₃ hp₃ hpp₃
  have hlt₁₂ : lexLt (Mail.file_name m₁) (Mail.file_name m₂) = true :=
    file_name_lt m₁ m₂ hppid₂.symm hpid₂.symm hlen₁₂ ht₁₂
  have hlt₂₃ : lexLt (Mail.file_name m₂) (Mail.file_name m₃) = true :=
    file_name_lt m₂ m₃ (by rw [hppid₂, hppid₃]) (by rw [hpid₂, hpid₃]) hlen₂₃ ht₂₃
  have hle₁₂ := lexLe_of_lexLt _ _ hlt₁₂
  have hle₂₃ := lexLe_of_lexLt _ _ hlt₂₃
  have hos₁₂ : OsString.valid (Mail.file_name m₁) ≠ OsString.valid (Mail.file_name m₂) := by
    intro heq; injection heq with h; exact hne₁₂ h
  have hos₁₃ : OsString.valid (Mail.file_name m₁) ≠ OsString.valid (Mail.file_name m₃) := by
    intro heq; injection heq with h; exact hne₁₃ h
  have hos₂₃ : OsString.valid (Mail.file_name m₂) ≠ OsString.valid (Mail.file_name m₃) := by
    intro heq; injection heq with h; exact hne₂₃ h
  have hload₁ : Mail.load
      [(OsString.valid (Mail.file_name m₁), FileContent.json j₁),
       (OsString.valid (Mail.file_name m₂), FileContent.json j₂),
       (OsString.valid (Mail.file_name m₃), FileContent.json j₃)] (Mail.file_name m₁)
      = Except.ok m₁ := by
    simp [Mail.load, lookupStore, mail_roundtrip m₁ hb₁ j₁ hj₁]
  have hload₂ : Mail.load
      [(OsString.valid (Mail.file_name m₁), FileContent.json j₁),
       (OsString.valid (Mail.file_name m₂), FileContent.json j₂),
       (OsString.valid (Mail.file_name m₃), FileContent.json j₃)] (Mail.file_name m₂)
      = Except.ok m₂ := by
    simp [Mail.load, lookupStore, hos₁₂, mail_roundtrip m₂ hb₂ j₂ hj₂]
  have hload₃ : Mail.load
      [(OsString.valid (Mail.file_name m₁), FileContent.json j₁),
       (OsString.valid (Mail.file_name m₂), FileContent.json j₂),
       (OsString.valid (Mail.file_name m₃), FileContent.json j₃)] (Mail.file_name m₃)
      = Except.ok m₃ := by
    simp [Mail.load, lookupStore, hos₁₃, hos₂₃, mail_roundtrip m₃ hb₃ j₃ hj₃]
  rw [hchain]
  unfold iter_mails
  rw [show (List.map Prod.fst
      [(OsString.valid (Mail.file_name m₁), FileContent.json j₁),
       (OsString.valid (Mail.file_name m₂), FileContent.json j₂),
       (OsString.valid (Mail.file_name m₃), FileContent.json j₃)])
      = [OsString.valid (Mail.file_name m₁), OsString.valid (Mail.file_name m₂),
         OsString.valid (Mail.file_name m₃)] from rfl]
  rw [show collectNames
      [OsString.valid (Mail.file_name m₁), OsString.valid (Mail.file_name m₂),
       OsString.valid (Mail.file_name m₃)]
      = some [Mail.file_name m₁, Mail.file_name m₂, Mail.file_name m₃] from by
    simp [collectNames, hm₁, hm₂, hm₃]]
  show some ((sortLex [Mail.file_name m₁, Mail.file_name m₂, Mail.file_name m₃]).map _) = _
  rw [show sortLex [Mail.file_name m₁, Mail.file_name m₂, Mail.file_name m₃]
      = [Mail.file_name m₁, Mail.file_name m₂, Mail.file_name m₃] from by
    simp [sortLex, insertLex, hle₁₂, hle₂₃]]
  simp [hload₁, hload₂, hload₃]

/-- First concrete record for the C6 witness (timestamp 10). -/
def C6m₁ : Mail := ⟨cliD, 4, 6, [], 10⟩

/-- Second concrete record for the C6 witness (timestamp 11). -/
def C6m₂ : Mail := ⟨cliD, 4, 6, [], 11⟩

/-- Third concrete record for the C6 witness (timestamp 12). -/
def C6m₃ : Mail := ⟨cliD, 4, 6, [], 12⟩

/-- The store after adding the three C6 witness records in order. -/
def C6store : Store :=
  (MailStore.add (MailStore.add (MailStore.add [] C6m₁).2 C6m₂).2 C6m₃).2

theorem C6_witness :
    iter_mails C6store C6store
      = some [Except.ok C6m₁, Except.ok C6m₂, Except.ok C6m₃] :=
  C6_iter_order C6m₁ C6m₂ C6m₃ _ _ _ (by decide) (by decide) rfl rfl rfl rfl
    (by decide) (by decide) rfl rfl rfl rfl rfl (by decide) (by decide) (by decide)
